import Mathlib

/-!
Shallow embedding of the workspace-folder engine of the vulnmap language
server (package `workspace` in the source): the diagnostic cache, the dedup
engine, the severity/product aggregator, the filter engine, the trust gate,
and the folder orchestration (`scan`, `ScanFolder`, `ScanFile`,
`processResults`, `publishDiagnostics`, `ClearDiagnosticsByIssueType`,
`IsTrusted`).

Go maps are embedded as association lists with unique keys; the concurrent
`xsync.MapOf` diagnostic cache is an association list `List (String × List Issue)`
(a `none` lookup models a Go nil slice / absent key, `some []` a stored empty
slice).  Side effects on the collaborators (Notifier, ScanNotifier,
HoverSink, Scanner) are recorded as an `Event` trace.  Live configuration
reads (`config.CurrentConfig()`) are passed in as an explicit `Config`
snapshot parameter.
-/

namespace VulnmapLS

/-- Issue severity, per `vulnmap.Severity`: Critical, High, Medium, Low. -/
inductive Severity where
  | critical
  | high
  | medium
  | low
deriving DecidableEq, Repr

/-- A scanner finding (`vulnmap.Issue`).  `FilterableIssueType` embeds the
result of the Go method `issue.GetFilterableIssueType()` as a field. -/
structure Issue where
  ID : String
  AffectedFilePath : String
  Severity : Severity
  Product : String
  FilterableIssueType : String
deriving DecidableEq, Repr

/-- Per-severity tally (`vulnmap.SeverityCount`). -/
structure SeverityCount where
  critical : Nat := 0
  high : Nat := 0
  medium : Nat := 0
  low : Nat := 0
deriving DecidableEq, Repr

/-- Go `map[product.Product]vulnmap.SeverityCount` as an association list. -/
abbrev SeverityCountMap := List (String × SeverityCount)

/-- Result envelope of one scan invocation (`vulnmap.ScanData`).  `Err` is
`none` for a successful scan. -/
structure ScanData where
  Product : String
  Issues : List Issue
  Err : Option String := none
  SeverityCount : SeverityCountMap := []
deriving DecidableEq, Repr

/-- Folder scan status (`FolderStatus`). -/
inductive FolderStatus where
  | Unscanned
  | Scanned
deriving DecidableEq, Repr

/-- The diagnostic cache: `xsync.MapOf[string, []vulnmap.Issue]` as an
association list from file path to the issues stored for it. -/
abbrev DiagnosticCache := List (String × List Issue)

/-- The mutable state of a `Folder` (collaborator references are modelled
by the event trace instead). -/
structure Folder where
  path : String
  name : String
  status : FolderStatus
  documentDiagnosticCache : DiagnosticCache
deriving DecidableEq, Repr

/-- Observable side effects on the collaborators. -/
inductive Event where
  | publishDiagnostics (uri : String) (diagnostics : List Issue)
  | hover (path : String) (issues : List Issue)
  | scanError (product : String) (folderPath : String)
  | scanSuccess (product : String) (folderPath : String) (issues : List Issue)
  | scanSuccessForAllProducts (folderPath : String) (issues : List Issue)
  | scannerScan (path : String) (folderPath : String)
deriving DecidableEq, Repr

/-- Severity-visibility policy (`config.FilterSeverity()`). -/
structure SeverityFilter where
  critical : Bool
  high : Bool
  medium : Bool
  low : Bool
deriving DecidableEq, Repr

/-- The configuration snapshot the folder code reads live:
trust feature flag and trusted folders, severity visibility, and the
displayable (enabled) filterable issue types (a Go `map[...]bool`). -/
structure Config where
  trustedFolderFeatureEnabled : Bool
  trustedFolders : List String
  filterSeverity : SeverityFilter
  displayableIssueTypes : List (String × Bool)
deriving DecidableEq, Repr

/-- Go map assignment `m[k] = v` on an association list: replace the first
binding of `k`, or append a new one. -/
def mapStore {β : Type} (k : String) (v : β) : List (String × β) → List (String × β)
  | [] => [(k, v)]
  | (k', v') :: rest => if k' = k then (k, v) :: rest else (k', v') :: mapStore k v rest

/-- Go map lookup `v, ok := m[k]`: `none` models `ok == false`. -/
def mapLookup {β : Type} (k : String) : List (String × β) → Option β
  | [] => none
  | (k', v) :: rest => if k' = k then some v else mapLookup k rest

/-- `map[string]bool` lookup: missing keys read as `false`. -/
def mapGetBool (m : List (String × Bool)) (k : String) : Bool :=
  (mapLookup k m).getD false

/-- `getUniqueIssueID`: `issue.ID + "|" + issue.AffectedFilePath`. -/
def getUniqueIssueID (issue : Issue) : String :=
  issue.ID ++ "|" ++ issue.AffectedFilePath

/-- `createDedupMap`: the set (Go `map[string]bool`, embedded as the list of
its keys) of unique issue IDs present anywhere in the diagnostic cache. -/
def createDedupMap (f : Folder) : List String :=
  (f.documentDiagnosticCache.map (fun kv => kv.2.map getUniqueIssueID)).flatten

/-- `initializeSeverityCountForProduct` from the source: make sure the
severity-count map has an entry for the (empty-normalized) product. -/
def setupSeverityCountForProduct (scanData : ScanData) (productType : String) : ScanData :=
  let productType := if productType = "" then "unknown" else productType
  match mapLookup productType scanData.SeverityCount with
  | some _ => scanData
  | none => { scanData with SeverityCount := mapStore productType {} scanData.SeverityCount }

/-- `incrementSeverityCount`: bump the per-product per-severity counter for
one accepted issue, normalizing an empty product to "unknown". -/
def incrementSeverityCount (scanData : ScanData) (issue : Issue) : ScanData :=
  let issueProduct := if issue.Product = "" then "unknown" else issue.Product
  let sd := setupSeverityCountForProduct scanData issueProduct
  let severityCount := (mapLookup issueProduct sd.SeverityCount).getD {}
  let severityCount :=
    match issue.Severity with
    | .critical => { severityCount with critical := severityCount.critical + 1 }
    | .high => { severityCount with high := severityCount.high + 1 }
    | .medium => { severityCount with medium := severityCount.medium + 1 }
    | .low => { severityCount with low := severityCount.low + 1 }
  { sd with SeverityCount := mapStore issueProduct severityCount sd.SeverityCount }

/-- `sendAnalytics`: the only state it touches is the severity-count map,
via `initializeSeverityCountForProduct(data, data.Product)`; the rest is a
send to the external analytics collaborator. -/
def sendAnalytics (data : ScanData) : ScanData :=
  setupSeverityCountForProduct data data.Product

/-- `isVisibleSeverity`: severity visibility per the live configuration. -/
def isVisibleSeverity (cfg : Config) (issue : Issue) : Bool :=
  match issue.Severity with
  | .critical => cfg.filterSeverity.critical
  | .high => cfg.filterSeverity.high
  | .medium => cfg.filterSeverity.medium
  | .low => cfg.filterSeverity.low

/-- `FilterIssues`: the loop that keeps an issue iff its severity is visible
and its filterable issue type is enabled. -/
def FilterIssues (cfg : Config) (issues : List Issue)
    (supportedIssueTypes : List (String × Bool)) : List Issue :=
  issues.foldl
    (fun filteredIssues issue =>
      if isVisibleSeverity cfg issue && mapGetBool supportedIssueTypes issue.FilterableIssueType
      then filteredIssues ++ [issue]
      else filteredIssues)
    []

/-- `filterCachedDiagnostics`: snapshot the cache and filter each file's
issues per live configuration. -/
def filterCachedDiagnostics (cfg : Config) (f : Folder) : List (String × List Issue) :=
  if f.documentDiagnosticCache.length = 0 then []
  else f.documentDiagnosticCache.map
    (fun kv => (kv.1, FilterIssues cfg kv.2 cfg.displayableIssueTypes))

/-- `sendDiagnostics`: one diagnostics notification per file. -/
def sendDiagnostics (issuesByFile : List (String × List Issue)) : List Event :=
  issuesByFile.map (fun kv => Event.publishDiagnostics kv.1 kv.2)

/-- `sendHovers`: one hover-content notification per file. -/
def sendHovers (issuesByFile : List (String × List Issue)) : List Event :=
  issuesByFile.map (fun kv => Event.hover kv.1 kv.2)

/-- `sendScanResults`: one aggregate scan-result notification; per-product
when a product is given, otherwise for all products. -/
def sendScanResults (f : Folder) (processedProduct : String)
    (issuesByFile : List (String × List Issue)) : List Event :=
  let productIssues := (issuesByFile.map (fun kv => kv.2)).flatten
  if processedProduct ≠ "" then
    [Event.scanSuccess processedProduct f.path productIssues]
  else
    [Event.scanSuccessForAllProducts f.path productIssues]

/-- `publishDiagnostics`: the source calls `sendDiagnostics`, then
`sendScanResults`, then `sendHovers`, in that order. -/
def publishDiagnostics (f : Folder) (product : String)
    (issuesByFile : List (String × List Issue)) : List Event :=
  sendDiagnostics issuesByFile ++ sendScanResults f product issuesByFile ++ sendHovers issuesByFile

/-- `FilterAndPublishCachedDiagnostics`. -/
def FilterAndPublishCachedDiagnostics (cfg : Config) (f : Folder) (product : String) : List Event :=
  publishDiagnostics f product (filterCachedDiagnostics cfg f)

/-- One iteration of the `processResults` update loop for one reported
issue: load the file's cached issues, append the issue and bump the counter
when its unique ID is not in the dedup map, and store back. -/
def processIssue (dedupMap : List String) (acc : Folder × ScanData) (issue : Issue) :
    Folder × ScanData :=
  let (f, sd) := acc
  let cachedIssues := (mapLookup issue.AffectedFilePath f.documentDiagnosticCache).getD []
  let (cachedIssues, sd) :=
    if !(dedupMap.contains (getUniqueIssueID issue)) then
      (cachedIssues ++ [issue], incrementSeverityCount sd issue)
    else
      (cachedIssues, sd)
  ({ f with documentDiagnosticCache :=
      mapStore issue.AffectedFilePath cachedIssues f.documentDiagnosticCache }, sd)

/-- `processResults`: on error, notify scan failure and return; otherwise
run the dedup/aggregation loop over the reported issues, send analytics,
and filter-and-publish the cached diagnostics. -/
def processResults (cfg : Config) (f : Folder) (scanData : ScanData) :
    Folder × ScanData × List Event :=
  match scanData.Err with
  | some _ => (f, scanData, [Event.scanError scanData.Product f.path])
  | none =>
    let dedupMap := createDedupMap f
    let (f', scanData') := scanData.Issues.foldl (processIssue dedupMap) (f, scanData)
    let scanData' := sendAnalytics scanData'
    (f', scanData', FilterAndPublishCachedDiagnostics cfg f' scanData'.Product)

/-- `strings.HasPrefix(s, pre)`, structurally on the character lists so the
kernel can evaluate it on concrete strings. -/
def hasPre (s pre : String) : Bool :=
  List.isPrefixOf pre.data s.data

/-- `IsTrusted`: every folder is trusted when the trust feature is off;
otherwise the folder path must extend a configured trusted folder path. -/
def IsTrusted (cfg : Config) (f : Folder) : Bool :=
  if !cfg.trustedFolderFeatureEnabled then true
  else cfg.trustedFolders.any (fun path => hasPre f.path path)

/-- `DocumentDiagnosticsFromCache`: `none` models the Go nil slice returned
for an absent cache entry. -/
def DocumentDiagnosticsFromCache (f : Folder) (file : String) : Option (List Issue) :=
  mapLookup file f.documentDiagnosticCache

/-- `scan`: trust gate, then cache-hit short circuit replaying the cached
issues through `processResults` with a synthesized `ScanData` (zero-value
`Product`, nil `Err`), else delegate to the external Scanner. -/
def scan (cfg : Config) (f : Folder) (path : String) : Folder × List Event :=
  if !(IsTrusted cfg f) then (f, [])
  else
    match DocumentDiagnosticsFromCache f path with
    | some issuesSlice =>
      let r := processResults cfg f { Product := "", Issues := issuesSlice }
      (r.1, r.2.2)
    | none => (f, [Event.scannerScan path f.path])

/-- `ScanFolder`: scan the folder path, then set status to Scanned. -/
def ScanFolder (cfg : Config) (f : Folder) : Folder × List Event :=
  let r := scan cfg f f.path
  ({ r.1 with status := .Scanned }, r.2)

/-- `ScanFile`. -/
def ScanFile (cfg : Config) (f : Folder) (path : String) : Folder × List Event :=
  scan cfg f path

/-- One iteration of `ClearDiagnosticsByIssueType`'s `Range` body for one
cached entry: drop issues of the removed type, and only when the count
changed, store back and republish diagnostics and hovers for that file. -/
def clearByTypeStep (removedType : String) (acc : Folder × List Event)
    (kv : String × List Issue) : Folder × List Event :=
  let (f, events) := acc
  let newIssues := kv.2.filter (fun issue => issue.FilterableIssueType ≠ removedType)
  if kv.2.length ≠ newIssues.length then
    ({ f with documentDiagnosticCache := mapStore kv.1 newIssues f.documentDiagnosticCache },
     events ++ [Event.publishDiagnostics kv.1 newIssues, Event.hover kv.1 newIssues])
  else
    (f, events)

/-- `ClearDiagnosticsByIssueType`: iterate the cache snapshot applying
`clearByTypeStep` to every entry. -/
def ClearDiagnosticsByIssueType (f : Folder) (removedType : String) : Folder × List Event :=
  f.documentDiagnosticCache.foldl (clearByTypeStep removedType) (f, [])

/-! ### Verification-side measures and sample data -/

/-- Number of issues in one stored issue list whose unique ID is `uid`. -/
def countListIds (l : List Issue) (uid : String) : Nat :=
  (l.filter (fun i => getUniqueIssueID i == uid)).length

/-- Number of issues anywhere in the diagnostic cache whose unique ID is
`uid` — the multiplicity of one dedup identity in the cache. -/
def countIssuesWithId (cache : DiagnosticCache) (uid : String) : Nat :=
  (cache.map (fun kv => countListIds kv.2 uid)).sum

/-- The dedup invariant: no two issues anywhere in the cache share a
unique identity. -/
def cacheHasUniqueIds (cache : DiagnosticCache) : Bool :=
  ((cache.map (fun kv => kv.2.map getUniqueIssueID)).flatten).Nodup

/-- The product label an issue is counted under (empty normalized to
"unknown"), as done by `incrementSeverityCount`. -/
def normalizedProduct (issue : Issue) : String :=
  if issue.Product = "" then "unknown" else issue.Product

/-- Bump the tally field matching the issue's severity. -/
def bumpSeverity (issue : Issue) (sc : SeverityCount) : SeverityCount :=
  match issue.Severity with
  | .critical => { sc with critical := sc.critical + 1 }
  | .high => { sc with high := sc.high + 1 }
  | .medium => { sc with medium := sc.medium + 1 }
  | .low => { sc with low := sc.low + 1 }

/-- Componentwise sum of two severity tallies. -/
def scAdd (a b : SeverityCount) : SeverityCount :=
  { critical := a.critical + b.critical, high := a.high + b.high,
    medium := a.medium + b.medium, low := a.low + b.low }

/-- Per-severity tally of the issues of a list that are counted under
product label `p`. -/
def productTally (p : String) : List Issue → SeverityCount
  | [] => {}
  | i :: rest =>
    if normalizedProduct i = p then bumpSeverity i (productTally p rest)
    else productTally p rest

/-- The severity count recorded for product `p` (zero value if absent). -/
def getCount (m : SeverityCountMap) (p : String) : SeverityCount :=
  (mapLookup p m).getD {}

/-- Does an event deliver an aggregate scan result (per-product or
all-products)? -/
def isScanResultEvent : Event → Bool
  | .scanSuccess _ _ _ => true
  | .scanSuccessForAllProducts _ _ => true
  | _ => false

/-- Is an event an invocation of the external Scanner? -/
def isScannerInvocation : Event → Bool
  | .scannerScan _ _ => true
  | _ => false

/-- Sample severity filter: everything visible. -/
def allVisible : SeverityFilter := ⟨true, true, true, true⟩

/-- Sample severity filter of the spec's filtering example:
Critical and High visible, Medium and Low hidden. -/
def criticalHighOnly : SeverityFilter := ⟨true, true, false, false⟩

/-- Sample configuration: trust feature off, everything visible. -/
def cfgOpen : Config :=
  { trustedFolderFeatureEnabled := false, trustedFolders := [],
    filterSeverity := allVisible, displayableIssueTypes := [("oss", true)] }

/-- Sample configuration of the trust example: trust feature on with one
trusted folder. -/
def cfgTrust : Config :=
  { trustedFolderFeatureEnabled := true, trustedFolders := ["/home/user/proj"],
    filterSeverity := allVisible, displayableIssueTypes := [("oss", true)] }

/-- A sample issue in file `/p/f.go`. -/
def issueA : Issue :=
  { ID := "VULN-1", AffectedFilePath := "/p/f.go", Severity := .high,
    Product := "oss", FilterableIssueType := "oss" }

/-- A second sample issue in the same file, different identity. -/
def issueB : Issue :=
  { ID := "VULN-2", AffectedFilePath := "/p/f.go", Severity := .low,
    Product := "oss", FilterableIssueType := "iac" }

/-- An empty folder rooted at `/p`. -/
def emptyFolder : Folder :=
  { path := "/p", name := "p", status := .Unscanned, documentDiagnosticCache := [] }

/-- A folder whose cache already holds `issueA` for `/p/f.go`. -/
def cachedFolder : Folder :=
  { path := "/p", name := "p", status := .Unscanned,
    documentDiagnosticCache := [("/p/f.go", [issueA])] }

/-- A sample issue of a given severity (used by the filtering example). -/
def sevIssue (sev : Severity) : Issue :=
  { ID := "VULN-1", AffectedFilePath := "/p/f.go", Severity := sev,
    Product := "oss", FilterableIssueType := "oss" }

/-- A folder below the trusted folder of `cfgTrust`. -/
def trustedSubFolder : Folder :=
  { path := "/home/user/proj/sub", name := "sub", status := .Unscanned,
    documentDiagnosticCache := [] }

/-- A folder outside the trusted folders of `cfgTrust`. -/
def untrustedFolder : Folder :=
  { path := "/home/user/other", name := "other", status := .Unscanned,
    documentDiagnosticCache := [] }

/-- Cache evolution of the `ClearDiagnosticsByIssueType` iteration: for each
visited entry whose issue count changed, the filtered entry is stored
back. -/
def clearCacheFold (T : String) : List (String × List Issue) → DiagnosticCache → DiagnosticCache
  | [], c => c
  | kv :: rest, c =>
    clearCacheFold T rest
      (if kv.2.length ≠ (kv.2.filter (fun issue => issue.FilterableIssueType ≠ T)).length
       then mapStore kv.1 (kv.2.filter (fun issue => issue.FilterableIssueType ≠ T)) c
       else c)

/-- The republish trace of `ClearDiagnosticsByIssueType`: one diagnostics
and one hover notification, in that order, for exactly the visited entries
whose issue count changed; nothing for a no-op entry. -/
def clearEvents (T : String) : List (String × List Issue) → List Event
  | [] => []
  | kv :: rest =>
    (if kv.2.length ≠ (kv.2.filter (fun issue => issue.FilterableIssueType ≠ T)).length
     then [Event.publishDiagnostics kv.1 (kv.2.filter (fun issue => issue.FilterableIssueType ≠ T)),
           Event.hover kv.1 (kv.2.filter (fun issue => issue.FilterableIssueType ≠ T))]
     else []) ++ clearEvents T rest

/-- A folder whose cache holds one type-"oss" and one type-"iac" issue for
`/p/f.go`. -/
def mixedFolder : Folder :=
  { path := "/p", name := "p", status := .Unscanned,
    documentDiagnosticCache := [("/p/f.go", [issueA, issueB])] }

/-- A sample issue with an empty product label. -/
def issueNoProd : Issue :=
  { ID := "VULN-3", AffectedFilePath := "/p/g.go", Severity := .medium,
    Product := "", FilterableIssueType := "oss" }

/-- A sample successful scan batch containing an issue with an empty
product label. -/
def scanBatch : ScanData :=
  { Product := "oss", Issues := [issueA, issueNoProd] }

end VulnmapLS

namespace VulnmapLS

/-! ### Helper lemmas -/

/-- The accumulate-if-kept fold used by `FilterIssues` is `List.filter`. -/
lemma foldl_append_filter {α : Type} (p : α → Bool) :
    ∀ (l acc : List α),
      l.foldl (fun a x => if p x then a ++ [x] else a) acc = acc ++ l.filter p := by
  intro l
  induction l with
  | nil => intro acc; simp
  | cons x xs ih =>
    intro acc
    by_cases h : p x = true
    · simp [List.foldl_cons, h, ih, List.filter_cons]
    · simp only [Bool.not_eq_true] at h
      simp [List.foldl_cons, h, ih, List.filter_cons]

/-- `FilterIssues` is the filter by visible severity and enabled type. -/
lemma FilterIssues_eq_filter (cfg : Config) (issues : List Issue)
    (sup : List (String × Bool)) :
    FilterIssues cfg issues sup
      = issues.filter
          (fun i => isVisibleSeverity cfg i && mapGetBool sup i.FilterableIssueType) := by
  unfold FilterIssues
  simpa using foldl_append_filter
    (fun i => isVisibleSeverity cfg i && mapGetBool sup i.FilterableIssueType) issues []

/-- Structural prefix test as an existence of a suffix. -/
lemma isPre_list_iff {α : Type} [DecidableEq α] :
    ∀ (p l : List α), List.isPrefixOf p l = true ↔ ∃ t, l = p ++ t := by
  intro p
  induction p with
  | nil => intro l; simp [List.isPrefixOf]
  | cons c cs ih =>
    intro l
    cases l with
    | nil => simp [List.isPrefixOf]
    | cons d ds =>
      constructor
      · intro hpre
        simp only [List.isPrefixOf, Bool.and_eq_true, beq_iff_eq] at hpre
        obtain ⟨t, ht⟩ := (ih ds).mp hpre.2
        exact ⟨t, by simp [hpre.1, ht]⟩
      · rintro ⟨t, ht⟩
        simp only [List.cons_append, List.cons.injEq] at ht
        simp only [List.isPrefixOf, Bool.and_eq_true, beq_iff_eq]
        exact ⟨ht.1.symm, (ih ds).mpr ⟨t, ht.2⟩⟩

/-! ### C7 -/

/-- C7: `FilterIssues` returns exactly the issues whose severity is visible
and whose filterable issue type is enabled, preserving input order; in
particular, under visibility Critical/High only and all types enabled,
issues of the four severities filter to the Critical and High ones in input
order. -/
theorem filterIssues_spec (cfg : Config) (issues : List Issue)
    (sup : List (String × Bool)) :
    FilterIssues cfg issues sup
      = issues.filter
          (fun i => isVisibleSeverity cfg i && mapGetBool sup i.FilterableIssueType)
    ∧ (∀ i, i ∈ FilterIssues cfg issues sup ↔
        i ∈ issues ∧ isVisibleSeverity cfg i = true
          ∧ mapGetBool sup i.FilterableIssueType = true)
    ∧ List.Sublist (FilterIssues cfg issues sup) issues
    ∧ FilterIssues { cfgOpen with filterSeverity := criticalHighOnly }
        [sevIssue .critical, sevIssue .high, sevIssue .medium, sevIssue .low]
        [("oss", true)]
      = [sevIssue .critical, sevIssue .high] := by
  refine ⟨FilterIssues_eq_filter cfg issues sup, ?_, ?_, by decide⟩
  · intro i
    rw [FilterIssues_eq_filter]
    simp [List.mem_filter, and_assoc]
  · rw [FilterIssues_eq_filter]
    exact List.filter_sublist issues

/-! ### C8 -/

/-- C8: `IsTrusted` is `true` for every folder when the trust feature is
disabled; when enabled, it is `true` iff some configured trusted folder
path is a string prefix of the folder's path.  The spec's examples:
`/home/user/proj/sub` is trusted under trusted folder `/home/user/proj`,
`/home/user/other` is not. -/
theorem isTrusted_spec (cfg : Config) (f : Folder) :
    (cfg.trustedFolderFeatureEnabled = false → IsTrusted cfg f = true)
    ∧ (IsTrusted cfg f = true ↔
        cfg.trustedFolderFeatureEnabled = false
        ∨ ∃ p ∈ cfg.trustedFolders, ∃ t, f.path.data = p.data ++ t)
    ∧ IsTrusted cfgTrust trustedSubFolder = true
    ∧ IsTrusted cfgTrust untrustedFolder = false := by
  refine ⟨?_, ?_, by decide, by decide⟩
  · intro h; simp [IsTrusted, h]
  · unfold IsTrusted hasPre
    cases h : cfg.trustedFolderFeatureEnabled with
    | false => simp [h]
    | true =>
      simp only [h, Bool.not_true, Bool.false_eq_true, if_false, List.any_eq_true,
        Bool.true_eq_false, false_or]
      constructor
      · rintro ⟨p, hp, hpre⟩
        exact ⟨p, hp, (isPre_list_iff p.data f.path.data).mp hpre⟩
      · rintro ⟨p, hp, t, ht⟩
        exact ⟨p, hp, (isPre_list_iff p.data f.path.data).mpr ⟨t, ht⟩⟩

/-- C8 witness: the theorem applied at the spec's concrete examples. -/
theorem isTrusted_spec_witness :
    IsTrusted cfgTrust trustedSubFolder = true
    ∧ IsTrusted cfgTrust untrustedFolder = false :=
  ⟨(isTrusted_spec cfgTrust trustedSubFolder).2.2.1,
   (isTrusted_spec cfgTrust untrustedFolder).2.2.2⟩

/-! ### C5 -/

/-- C5: on a `ScanData` with a non-nil `Err`, `processResults` sends exactly
one scan-failure notification for that product and the folder path and
returns with the folder (cache and status) and the scan data unchanged. -/
theorem processResults_error_frame (cfg : Config) (f : Folder) (scanData : ScanData)
    (errMsg : String) (hErr : scanData.Err = some errMsg) :
    processResults cfg f scanData
      = (f, scanData, [Event.scanError scanData.Product f.path]) := by
  simp [processResults, hErr]

/-- C5 witness: a concrete failed scan leaves the folder untouched and
emits the single failure notification. -/
theorem processResults_error_frame_witness :
    ({ Product := "oss", Issues := [issueA], Err := some "boom" } : ScanData).Err = some "boom"
    ∧ processResults cfgOpen cachedFolder
        { Product := "oss", Issues := [issueA], Err := some "boom" }
      = (cachedFolder, { Product := "oss", Issues := [issueA], Err := some "boom" },
         [Event.scanError "oss" "/p"]) :=
  ⟨rfl, processResults_error_frame cfgOpen cachedFolder
    { Product := "oss", Issues := [issueA], Err := some "boom" } "boom" rfl⟩

/-! ### C2 -/

/-- C2 counterexample: on an untrusted folder, `ScanFolder` does change the
folder's status — from Unscanned to Scanned — contradicting the claim that
the status is unchanged and only set when trusted. -/
theorem scanFolder_untrusted_status_counterexample :
    IsTrusted cfgTrust untrustedFolder = false
    ∧ untrustedFolder.status = FolderStatus.Unscanned
    ∧ (ScanFolder cfgTrust untrustedFolder).1.status = FolderStatus.Scanned := by
  decide

/-- C2 amended: for an untrusted folder, `ScanFolder` invokes no scanner and
emits no notifications and leaves the cache untouched, but it still sets
the folder status to Scanned unconditionally. -/
theorem scanFolder_untrusted_amended (cfg : Config) (f : Folder)
    (h : IsTrusted cfg f = false) :
    ScanFolder cfg f = ({ f with status := FolderStatus.Scanned }, []) := by
  simp [ScanFolder, scan, h]

/-- C2 witness: the amended theorem at the spec's untrusted folder. -/
theorem scanFolder_untrusted_amended_witness :
    IsTrusted cfgTrust untrustedFolder = false
    ∧ ScanFolder cfgTrust untrustedFolder
      = ({ untrustedFolder with status := FolderStatus.Scanned }, []) :=
  ⟨by decide, scanFolder_untrusted_amended cfgTrust untrustedFolder (by decide)⟩

/-! ### C4 -/

/-- C4 counterexample: publishing cached diagnostics emits the aggregate
scan-result notification before the hover notifications, not after them as
the claim states. -/
theorem publish_order_counterexample :
    FilterAndPublishCachedDiagnostics cfgOpen cachedFolder ""
      = [Event.publishDiagnostics "/p/f.go" [issueA],
         Event.scanSuccessForAllProducts "/p" [issueA],
         Event.hover "/p/f.go" [issueA]]
    ∧ FilterAndPublishCachedDiagnostics cfgOpen cachedFolder ""
      ≠ [Event.publishDiagnostics "/p/f.go" [issueA],
         Event.hover "/p/f.go" [issueA],
         Event.scanSuccessForAllProducts "/p" [issueA]] := by
  decide

/-- C4 amended: every publish emits one diagnostics notification per file
for all files, then the single aggregate scan-result notification
(per-product if a product is given, else for all products), then one hover
notification per file for all files. -/
theorem publish_order_amended (f : Folder) (product : String)
    (issuesByFile : List (String × List Issue)) :
    publishDiagnostics f product issuesByFile
      = (issuesByFile.map (fun kv => Event.publishDiagnostics kv.1 kv.2))
        ++ (if product = "" then
              [Event.scanSuccessForAllProducts f.path
                ((issuesByFile.map (fun kv => kv.2)).flatten)]
            else
              [Event.scanSuccess product f.path
                ((issuesByFile.map (fun kv => kv.2)).flatten)])
        ++ (issuesByFile.map (fun kv => Event.hover kv.1 kv.2)) := by
  by_cases h : product = ""
  · simp [publishDiagnostics, sendDiagnostics, sendScanResults, sendHovers, h]
  · simp [publishDiagnostics, sendDiagnostics, sendScanResults, sendHovers, h]

end VulnmapLS

namespace VulnmapLS

/-! ### Shape lemmas about published events -/

/-- Every event emitted by `publishDiagnostics` is a per-file diagnostics
notification, a per-file hover notification, or the one aggregate
scan-result notification for the folder path. -/
lemma mem_publish_shape (f : Folder) (pr : String) (ibf : List (String × List Issue)) :
    ∀ e ∈ publishDiagnostics f pr ibf,
      (∃ a b, e = Event.publishDiagnostics a b)
      ∨ (∃ a b, e = Event.hover a b)
      ∨ (pr ≠ "" ∧ ∃ b, e = Event.scanSuccess pr f.path b)
      ∨ (pr = "" ∧ ∃ b, e = Event.scanSuccessForAllProducts f.path b) := by
  intro e he
  simp only [publishDiagnostics, List.mem_append] at he
  rcases he with (he | he) | he
  · simp only [sendDiagnostics, List.mem_map] at he
    obtain ⟨kv, _, rfl⟩ := he
    exact Or.inl ⟨kv.1, kv.2, rfl⟩
  · simp only [sendScanResults] at he
    split at he
    · rename_i hc
      simp only [List.mem_singleton] at he
      exact Or.inr (Or.inr (Or.inl ⟨hc, _, he⟩))
    · rename_i hc
      simp only [ne_eq, Decidable.not_not] at hc
      simp only [List.mem_singleton] at he
      exact Or.inr (Or.inr (Or.inr ⟨hc, _, he⟩))
  · simp only [sendHovers, List.mem_map] at he
    obtain ⟨kv, _, rfl⟩ := he
    exact Or.inr (Or.inl ⟨kv.1, kv.2, rfl⟩)

/-- Diagnostics notifications are not scan results. -/
lemma filter_scanResult_sendDiagnostics (ibf : List (String × List Issue)) :
    (sendDiagnostics ibf).filter isScanResultEvent = [] := by
  induction ibf with
  | nil => rfl
  | cons kv rest ih => simp [sendDiagnostics, isScanResultEvent, List.filter_cons] at ih ⊢; exact ih

/-- Hover notifications are not scan results. -/
lemma filter_scanResult_sendHovers (ibf : List (String × List Issue)) :
    (sendHovers ibf).filter isScanResultEvent = [] := by
  induction ibf with
  | nil => rfl
  | cons kv rest ih => simp [sendHovers, isScanResultEvent, List.filter_cons] at ih ⊢; exact ih

/-- The scan-result events of one publish with the zero-value product are
exactly one all-products success for the folder path. -/
lemma filter_scanResult_publish_empty (f : Folder) (ibf : List (String × List Issue)) :
    (publishDiagnostics f "" ibf).filter isScanResultEvent
      = [Event.scanSuccessForAllProducts f.path ((ibf.map (fun kv => kv.2)).flatten)] := by
  simp only [publishDiagnostics, List.filter_append, filter_scanResult_sendDiagnostics,
    filter_scanResult_sendHovers, sendScanResults, List.nil_append, List.append_nil]
  simp [isScanResultEvent]

/-! ### Projection lemmas for the processResults loop -/

/-- `initializeSeverityCountForProduct` only touches the severity-count
map. -/
lemma setupSeverityCountForProduct_proj (sd : ScanData) (p : String) :
    (setupSeverityCountForProduct sd p).Product = sd.Product
    ∧ (setupSeverityCountForProduct sd p).Err = sd.Err
    ∧ (setupSeverityCountForProduct sd p).Issues = sd.Issues := by
  simp only [setupSeverityCountForProduct]
  split <;> simp

/-- `incrementSeverityCount` only touches the severity-count map. -/
lemma incrementSeverityCount_proj (sd : ScanData) (i : Issue) :
    (incrementSeverityCount sd i).Product = sd.Product
    ∧ (incrementSeverityCount sd i).Err = sd.Err
    ∧ (incrementSeverityCount sd i).Issues = sd.Issues := by
  obtain ⟨h1, h2, h3⟩ :=
    setupSeverityCountForProduct_proj sd (if i.Product = "" then "unknown" else i.Product)
  unfold incrementSeverityCount
  simp [h1, h2, h3]

/-- One `processIssue` step only touches the cache and the severity-count
map: folder path, name, status and the scan data identity fields are kept. -/
lemma processIssue_proj (d : List String) (acc : Folder × ScanData) (i : Issue) :
    (processIssue d acc i).1.path = acc.1.path
    ∧ (processIssue d acc i).1.name = acc.1.name
    ∧ (processIssue d acc i).1.status = acc.1.status
    ∧ (processIssue d acc i).2.Product = acc.2.Product
    ∧ (processIssue d acc i).2.Err = acc.2.Err
    ∧ (processIssue d acc i).2.Issues = acc.2.Issues := by
  obtain ⟨f, sd⟩ := acc
  obtain ⟨h1, h2, h3⟩ := incrementSeverityCount_proj sd i
  unfold processIssue
  by_cases h : getUniqueIssueID i ∈ d
  · simp [h]
  · simp [h, h1, h2, h3]

/-- The whole processing loop keeps folder path, name, status and the scan
data identity fields. -/
lemma foldl_processIssue_proj (d : List String) :
    ∀ (l : List Issue) (acc : Folder × ScanData),
      (l.foldl (processIssue d) acc).1.path = acc.1.path
      ∧ (l.foldl (processIssue d) acc).1.name = acc.1.name
      ∧ (l.foldl (processIssue d) acc).1.status = acc.1.status
      ∧ (l.foldl (processIssue d) acc).2.Product = acc.2.Product
      ∧ (l.foldl (processIssue d) acc).2.Err = acc.2.Err := by
  intro l
  induction l with
  | nil => intro acc; simp
  | cons i rest ih =>
    intro acc
    obtain ⟨h1, h2, h3, h4, h5, _⟩ := processIssue_proj d acc i
    obtain ⟨g1, g2, g3, g4, g5⟩ := ih (processIssue d acc i)
    simp only [List.foldl_cons]
    exact ⟨g1.trans h1, g2.trans h2, g3.trans h3, g4.trans h4, g5.trans h5⟩

/-- `sendAnalytics` keeps the product. -/
lemma sendAnalytics_product (sd : ScanData) : (sendAnalytics sd).Product = sd.Product := by
  unfold sendAnalytics setupSeverityCountForProduct
  cases h : mapLookup (if sd.Product = "" then "unknown" else sd.Product) sd.SeverityCount <;>
    simp [h]

/-! ### C3 -/

/-- C3: on a trusted folder, `ScanFile` on a path with a non-empty cache
entry does not invoke the external Scanner: its result is exactly that of
replaying the cached issues through `processResults` (with a synthesized
`ScanData`), and no event of the trace is a Scanner invocation; on a path
with no cache entry, `ScanFile` delegates to the Scanner. -/
theorem scanFile_cache_replay (cfg : Config) (f : Folder) (p1 p2 : String)
    (issues : List Issue) (hTrust : IsTrusted cfg f = true)
    (hCached : DocumentDiagnosticsFromCache f p1 = some issues)
    (hne : issues ≠ [])
    (hMiss : DocumentDiagnosticsFromCache f p2 = none) :
    ScanFile cfg f p1
      = ((processResults cfg f { Product := "", Issues := issues }).1,
         (processResults cfg f { Product := "", Issues := issues }).2.2)
    ∧ (∀ e ∈ (ScanFile cfg f p1).2, isScannerInvocation e = false)
    ∧ ScanFile cfg f p2 = (f, [Event.scannerScan p2 f.path]) := by
  refine ⟨by simp [ScanFile, scan, hTrust, hCached], ?_, by simp [ScanFile, scan, hTrust, hMiss]⟩
  intro e he
  simp only [ScanFile, scan, hTrust, Bool.not_true, Bool.false_eq_true, if_false,
    hCached] at he
  simp only [processResults, FilterAndPublishCachedDiagnostics] at he
  rcases mem_publish_shape _ _ _ e he with
    ⟨a, b, rfl⟩ | ⟨a, b, rfl⟩ | ⟨hpr, b, rfl⟩ | ⟨hpr, b, rfl⟩ <;> rfl

/-- C3 witness: on `cachedFolder` (non-empty entry for `/p/f.go`, no entry
for `/p/other.go`) the replay equalities hold concretely. -/
theorem scanFile_cache_replay_witness :
    IsTrusted cfgOpen cachedFolder = true
    ∧ DocumentDiagnosticsFromCache cachedFolder "/p/f.go" = some [issueA]
    ∧ [issueA] ≠ ([] : List Issue)
    ∧ DocumentDiagnosticsFromCache cachedFolder "/p/other.go" = none
    ∧ (ScanFile cfgOpen cachedFolder "/p/f.go"
        = ((processResults cfgOpen cachedFolder { Product := "", Issues := [issueA] }).1,
           (processResults cfgOpen cachedFolder { Product := "", Issues := [issueA] }).2.2)
      ∧ (∀ e ∈ (ScanFile cfgOpen cachedFolder "/p/f.go").2, isScannerInvocation e = false)
      ∧ ScanFile cfgOpen cachedFolder "/p/other.go"
        = (cachedFolder, [Event.scannerScan "/p/other.go" cachedFolder.path])) :=
  ⟨by decide, by decide, by decide, by decide,
   scanFile_cache_replay cfgOpen cachedFolder "/p/f.go" "/p/other.go" [issueA]
     (by decide) (by decide) (by decide) (by decide)⟩

/-! ### C10 -/

/-- C10: on a cache-hit replay, the synthesized `ScanData` carries the
zero-value product, so the trace's scan-result notifications consist of
exactly one `SendSuccessForAllProducts` for the folder path, and never a
per-product `SendSuccess`. -/
theorem cache_replay_product_all (cfg : Config) (f : Folder) (path : String)
    (issues : List Issue) (hTrust : IsTrusted cfg f = true)
    (hCached : DocumentDiagnosticsFromCache f path = some issues) :
    (∃ aggregated, ((ScanFile cfg f path).2).filter isScanResultEvent
        = [Event.scanSuccessForAllProducts f.path aggregated])
    ∧ (∀ pr fp is2, Event.scanSuccess pr fp is2 ∉ (ScanFile cfg f path).2) := by
  have hfold := foldl_processIssue_proj (createDedupMap f) issues
    (f, { Product := "", Issues := issues })
  have hprod : (sendAnalytics (issues.foldl (processIssue (createDedupMap f))
      (f, ({ Product := "", Issues := issues } : ScanData))).2).Product = "" := by
    rw [sendAnalytics_product, hfold.2.2.2.1]
  constructor
  · refine ⟨((filterCachedDiagnostics cfg
      (issues.foldl (processIssue (createDedupMap f))
        (f, { Product := "", Issues := issues })).1).map (fun kv => kv.2)).flatten, ?_⟩
    simp only [ScanFile, scan, hTrust, Bool.not_true, Bool.false_eq_true, if_false, hCached]
    simp only [processResults, FilterAndPublishCachedDiagnostics]
    rw [hprod, filter_scanResult_publish_empty]
    rw [hfold.1]
  · intro pr fp is2 hmem
    simp only [ScanFile, scan, hTrust, Bool.not_true, Bool.false_eq_true, if_false,
      hCached] at hmem
    simp only [processResults, FilterAndPublishCachedDiagnostics] at hmem
    rw [hprod] at hmem
    rcases mem_publish_shape _ _ _ _ hmem with
      ⟨a, b, h⟩ | ⟨a, b, h⟩ | ⟨hpr, b, h⟩ | ⟨hpr, b, h⟩
    · simp at h
    · simp at h
    · exact hpr rfl
    · simp at h

/-- C10 witness: the concrete replay on `cachedFolder` sends its scan
result through the all-products channel only. -/
theorem cache_replay_product_all_witness :
    IsTrusted cfgOpen cachedFolder = true
    ∧ DocumentDiagnosticsFromCache cachedFolder "/p/f.go" = some [issueA]
    ∧ ((∃ aggregated, ((ScanFile cfgOpen cachedFolder "/p/f.go").2).filter isScanResultEvent
          = [Event.scanSuccessForAllProducts cachedFolder.path aggregated])
      ∧ (∀ pr fp is2,
          Event.scanSuccess pr fp is2 ∉ (ScanFile cfgOpen cachedFolder "/p/f.go").2)) :=
  ⟨by decide, by decide,
   cache_replay_product_all cfgOpen cachedFolder "/p/f.go" [issueA] (by decide) (by decide)⟩

end VulnmapLS

namespace VulnmapLS

/-! ### C9: ClearDiagnosticsByIssueType -/

/-- Unfolding the `ClearDiagnosticsByIssueType` fold: the folder's cache is
rewritten by `clearCacheFold` over the visited snapshot and the events are
`clearEvents`, appended to the accumulator. -/
lemma foldl_clearByTypeStep (T : String) :
    ∀ (l : List (String × List Issue)) (g : Folder) (evs : List Event),
      l.foldl (clearByTypeStep T) (g, evs)
        = ({ g with documentDiagnosticCache := clearCacheFold T l g.documentDiagnosticCache },
           evs ++ clearEvents T l) := by
  intro l
  induction l with
  | nil => intro g evs; simp [clearCacheFold, clearEvents]
  | cons kv rest ih =>
    intro g evs
    rw [List.foldl_cons]
    by_cases h : kv.2.length = (kv.2.filter (fun issue => issue.FilterableIssueType ≠ T)).length
    · have hstep : clearByTypeStep T (g, evs) kv = (g, evs) := by
        simp only [clearByTypeStep]
        rw [if_neg (not_not_intro h)]
      rw [hstep, ih, clearCacheFold, clearEvents,
        if_neg (not_not_intro h), if_neg (not_not_intro h), List.nil_append]
    · simp only [clearByTypeStep]
      rw [if_pos h, ih, clearCacheFold, clearEvents, if_pos h, if_pos h, List.append_assoc]

/-- Storing under a key whose first binding sits behind a key-disjoint
part replaces that binding in place. -/
lemma mapStore_middle {β : Type} (k : String) (v w : β) :
    ∀ (c1 c2 : List (String × β)), k ∉ c1.map Prod.fst →
      mapStore k v (c1 ++ (k, w) :: c2) = c1 ++ (k, v) :: c2 := by
  intro c1
  induction c1 with
  | nil => intro c2 _; simp [mapStore]
  | cons kv rest ih =>
    intro c2 hk
    simp only [List.map_cons, List.mem_cons, not_or] at hk
    simp only [List.cons_append, mapStore, List.append_eq]
    rw [if_neg (fun hh => hk.1 hh.symm), ih c2 hk.2]

/-- `clearCacheFold` over a key-unique suffix of the cache rewrites exactly
that suffix entrywise with the filtered issue lists. -/
lemma clearCacheFold_structure (T : String) :
    ∀ (l c1 : List (String × List Issue)),
      (l.map Prod.fst).Nodup →
      (∀ a ∈ c1.map Prod.fst, a ∉ l.map Prod.fst) →
      clearCacheFold T l (c1 ++ l)
        = c1 ++ l.map (fun kv =>
            (kv.1, kv.2.filter (fun issue => issue.FilterableIssueType ≠ T))) := by
  intro l
  induction l with
  | nil => intro c1 _ _; simp [clearCacheFold]
  | cons kv rest ih =>
    obtain ⟨k, v⟩ := kv
    intro c1 hnd hdisj
    simp only [List.map_cons, List.nodup_cons] at hnd
    have hk1 : k ∉ c1.map Prod.fst := fun hmem => (hdisj k hmem) (by simp)
    have hdA : ∀ a ∈ c1.map Prod.fst, a ∉ rest.map Prod.fst := by
      intro a ha hm
      exact (hdisj a ha) (by simp [hm])
    have hdisj2 : ∀ (w : List Issue) a,
        a ∈ (c1 ++ [(k, w)]).map Prod.fst → a ∉ rest.map Prod.fst := by
      intro w a ha
      simp only [List.map_append, List.mem_append, List.map_cons, List.map_nil,
        List.mem_singleton, List.mem_cons, List.not_mem_nil, or_false] at ha
      rcases ha with ha | ha
      · exact hdA a ha
      · rw [ha]; exact hnd.1
    by_cases h : v.length = (v.filter (fun issue => issue.FilterableIssueType ≠ T)).length
    · have hfix : v.filter (fun issue => issue.FilterableIssueType ≠ T) = v :=
        (List.filter_sublist v).eq_of_length h.symm
      rw [clearCacheFold]
      dsimp only
      rw [if_neg (not_not_intro h)]
      have hre : c1 ++ (k, v) :: rest = (c1 ++ [(k, v)]) ++ rest := by simp
      rw [hre, ih (c1 ++ [(k, v)]) hnd.2 (hdisj2 v)]
      rw [List.map_cons]
      dsimp only
      rw [hfix, List.append_assoc, List.singleton_append]
    · rw [clearCacheFold]
      dsimp only
      rw [if_pos h]
      rw [mapStore_middle k (v.filter (fun issue => issue.FilterableIssueType ≠ T)) v c1 rest hk1]
      have hre : c1 ++ (k, v.filter (fun issue => issue.FilterableIssueType ≠ T)) :: rest
          = (c1 ++ [(k, v.filter (fun issue => issue.FilterableIssueType ≠ T))]) ++ rest := by
        simp
      rw [hre, ih _ hnd.2 (hdisj2 _)]
      rw [List.map_cons]
      dsimp only
      rw [List.append_assoc, List.singleton_append]

/-- Entries whose filtered length is unchanged produce no store and no
events. -/
lemma clearCacheFold_fixed (T : String) :
    ∀ (l : List (String × List Issue)) (c : DiagnosticCache),
      (∀ kv ∈ l, kv.2.length
        = (kv.2.filter (fun issue => issue.FilterableIssueType ≠ T)).length) →
      clearCacheFold T l c = c ∧ clearEvents T l = [] := by
  intro l
  induction l with
  | nil => intro c _; exact ⟨rfl, rfl⟩
  | cons kv rest ih =>
    intro c hall
    have hkv := hall kv (List.mem_cons_self kv rest)
    have hrest : ∀ kv2 ∈ rest, kv2.2.length
        = (kv2.2.filter (fun issue => issue.FilterableIssueType ≠ T)).length := by
      intro kv2 h2
      exact hall kv2 (List.mem_cons_of_mem kv h2)
    constructor
    · rw [clearCacheFold, if_neg (not_not_intro hkv)]
      exact (ih c hrest).1
    · rw [clearEvents, if_neg (not_not_intro hkv), (ih c hrest).2]
      rfl

/-- A second type filter with the same type removes nothing. -/
lemma filter_type_idem (T : String) (l : List Issue) :
    (l.filter (fun issue => issue.FilterableIssueType ≠ T)).filter
        (fun issue => issue.FilterableIssueType ≠ T)
      = l.filter (fun issue => issue.FilterableIssueType ≠ T) := by
  induction l with
  | nil => rfl
  | cons i rest ih =>
    by_cases h : i.FilterableIssueType = T
    · simp [List.filter_cons, h, ih]
    · simp [List.filter_cons, h, ih]

end VulnmapLS

namespace VulnmapLS

/-- C9: `ClearDiagnosticsByIssueType(T)` removes from every cached entry
exactly the issues of filterable type `T`, keeping the others in order, and
leaves the folder path and status alone; it republishes one diagnostics and
one hover notification only for the entries whose issue count changed
(`clearEvents` emits nothing for a no-op entry); and a second call with the
same `T` is a no-op with zero republishes. -/
theorem clearByIssueType_spec (f : Folder) (T : String)
    (hNodup : (f.documentDiagnosticCache.map Prod.fst).Nodup) :
    (ClearDiagnosticsByIssueType f T).1.documentDiagnosticCache
      = f.documentDiagnosticCache.map
          (fun kv => (kv.1, kv.2.filter (fun issue => issue.FilterableIssueType ≠ T)))
    ∧ (ClearDiagnosticsByIssueType f T).1.path = f.path
    ∧ (ClearDiagnosticsByIssueType f T).1.status = f.status
    ∧ (ClearDiagnosticsByIssueType f T).2 = clearEvents T f.documentDiagnosticCache
    ∧ ClearDiagnosticsByIssueType (ClearDiagnosticsByIssueType f T).1 T
      = ((ClearDiagnosticsByIssueType f T).1, []) := by
  have hcache := clearCacheFold_structure T f.documentDiagnosticCache [] hNodup (by simp)
  simp only [List.nil_append] at hcache
  have h1 : ClearDiagnosticsByIssueType f T
      = ({ f with documentDiagnosticCache :=
            clearCacheFold T f.documentDiagnosticCache f.documentDiagnosticCache },
         clearEvents T f.documentDiagnosticCache) := by
    unfold ClearDiagnosticsByIssueType
    rw [foldl_clearByTypeStep, List.nil_append]
  refine ⟨?_, ?_, ?_, ?_, ?_⟩
  · rw [h1]
    exact hcache
  · rw [h1]
  · rw [h1]
  · rw [h1]
  · rw [h1]
    dsimp only
    rw [hcache]
    unfold ClearDiagnosticsByIssueType
    dsimp only
    rw [foldl_clearByTypeStep]
    have hfixed := clearCacheFold_fixed T
      (f.documentDiagnosticCache.map
        (fun kv => (kv.1, kv.2.filter (fun issue => issue.FilterableIssueType ≠ T))))
      (f.documentDiagnosticCache.map
        (fun kv => (kv.1, kv.2.filter (fun issue => issue.FilterableIssueType ≠ T))))
      ?_
    · rw [hfixed.1, hfixed.2, List.nil_append]
    · intro kv hkv
      obtain ⟨kv0, hkv0, rfl⟩ := List.mem_map.mp hkv
      dsimp only
      rw [filter_type_idem]

/-- C9 witness: on a cached file with one type-"oss" and one type-"iac"
issue, clearing type "oss" keeps only the "iac" issue, republishes that
file once, and a second clear is silent. -/
theorem clearByIssueType_spec_witness :
    (mixedFolder.documentDiagnosticCache.map Prod.fst).Nodup
    ∧ ((ClearDiagnosticsByIssueType mixedFolder "oss").1.documentDiagnosticCache
        = mixedFolder.documentDiagnosticCache.map
            (fun kv => (kv.1, kv.2.filter (fun issue => issue.FilterableIssueType ≠ "oss")))
      ∧ (ClearDiagnosticsByIssueType mixedFolder "oss").1.path = mixedFolder.path
      ∧ (ClearDiagnosticsByIssueType mixedFolder "oss").1.status = mixedFolder.status
      ∧ (ClearDiagnosticsByIssueType mixedFolder "oss").2
          = clearEvents "oss" mixedFolder.documentDiagnosticCache
      ∧ ClearDiagnosticsByIssueType (ClearDiagnosticsByIssueType mixedFolder "oss").1 "oss"
          = ((ClearDiagnosticsByIssueType mixedFolder "oss").1, [])) :=
  ⟨by decide, clearByIssueType_spec mixedFolder "oss" (by decide)⟩

end VulnmapLS

namespace VulnmapLS

/-! ### C6: severity/product aggregation -/

/-- Lookup after store at the same key. -/
lemma mapLookup_mapStore_self {β : Type} (k : String) (v : β) :
    ∀ (m : List (String × β)), mapLookup k (mapStore k v m) = some v := by
  intro m
  induction m with
  | nil => simp [mapStore, mapLookup]
  | cons kv rest ih =>
    by_cases h : kv.1 = k
    · simp [mapStore, mapLookup, h]
    · obtain ⟨k', v'⟩ := kv
      simp only at h
      simp [mapStore, mapLookup, h, ih]

/-- Lookup after store at a different key. -/
lemma mapLookup_mapStore_ne {β : Type} (k q : String) (v : β) (hq : q ≠ k) :
    ∀ (m : List (String × β)), mapLookup q (mapStore k v m) = mapLookup q m := by
  have hk : ¬(k = q) := fun h => hq h.symm
  intro m
  induction m with
  | nil => simp [mapStore, mapLookup, hk]
  | cons kv rest ih =>
    obtain ⟨k', v'⟩ := kv
    by_cases h : k' = k
    · subst h
      simp [mapStore, mapLookup, hk]
    · simp [mapStore, mapLookup, h, ih]

/-- Keys after a store are the stored key or old keys. -/
lemma mem_keys_mapStore {β : Type} (k q : String) (v : β) :
    ∀ (m : List (String × β)), q ∈ (mapStore k v m).map Prod.fst →
      q = k ∨ q ∈ m.map Prod.fst := by
  intro m
  induction m with
  | nil =>
    intro h
    simp [mapStore] at h
    exact Or.inl h
  | cons kv rest ih =>
    obtain ⟨k', v'⟩ := kv
    intro hq
    simp only [List.map_cons, List.mem_cons]
    by_cases h : k' = k
    · subst h
      simp [mapStore] at hq
      rcases hq with hq | ⟨x, hx⟩
      · exact Or.inl hq
      · exact Or.inr (Or.inr (List.mem_map.mpr ⟨(q, x), hx, rfl⟩))
    · simp only [mapStore, if_neg h, List.map_cons, List.mem_cons] at hq
      rcases hq with hq | hq
      · exact Or.inr (Or.inl hq)
      · rcases ih hq with hq2 | hq2
        · exact Or.inl hq2
        · exact Or.inr (Or.inr hq2)

/-- The normalized product label is never the empty string. -/
lemma normalizedProduct_ne (i : Issue) : normalizedProduct i ≠ "" := by
  unfold normalizedProduct
  split
  · decide
  · assumption

/-- `initializeSeverityCountForProduct` does not change any recorded
count (it only inserts zero entries). -/
lemma getCount_setup (sd : ScanData) (p q : String) :
    getCount (setupSeverityCountForProduct sd p).SeverityCount q
      = getCount sd.SeverityCount q := by
  simp only [setupSeverityCountForProduct]
  cases hl : mapLookup (if p = "" then "unknown" else p) sd.SeverityCount with
  | some w => rfl
  | none =>
    show getCount (mapStore (if p = "" then "unknown" else p) {} sd.SeverityCount) q = _
    by_cases hq : q = (if p = "" then "unknown" else p)
    · unfold getCount
      rw [hq, mapLookup_mapStore_self, hl]
      rfl
    · unfold getCount
      rw [mapLookup_mapStore_ne _ _ _ hq]

/-- Keys after `initializeSeverityCountForProduct`. -/
lemma mem_keys_setup (sd : ScanData) (p q : String) :
    q ∈ (setupSeverityCountForProduct sd p).SeverityCount.map Prod.fst →
      q = (if p = "" then "unknown" else p) ∨ q ∈ sd.SeverityCount.map Prod.fst := by
  simp only [setupSeverityCountForProduct]
  cases hl : mapLookup (if p = "" then "unknown" else p) sd.SeverityCount with
  | some w => exact fun h => Or.inr h
  | none => exact fun h => mem_keys_mapStore _ _ _ _ h

/-- The count recorded by `incrementSeverityCount`: the issue's normalized
product gains one in its severity slot, all other products are unchanged. -/
lemma getCount_increment (sd : ScanData) (i : Issue) (p : String) :
    getCount (incrementSeverityCount sd i).SeverityCount p
      = (if normalizedProduct i = p
         then bumpSeverity i (getCount sd.SeverityCount p)
         else getCount sd.SeverityCount p) := by
  have hsetup := getCount_setup sd (normalizedProduct i)
  unfold incrementSeverityCount
  show getCount (mapStore (normalizedProduct i) _
    (setupSeverityCountForProduct sd (normalizedProduct i)).SeverityCount) p = _
  by_cases hp : normalizedProduct i = p
  · rw [if_pos hp]
    unfold getCount
    rw [← hp, mapLookup_mapStore_self]
    show bumpSeverity i (getCount (setupSeverityCountForProduct sd (normalizedProduct i)).SeverityCount (normalizedProduct i)) = _
    rw [hsetup]
    rfl
  · rw [if_neg hp]
    unfold getCount
    rw [mapLookup_mapStore_ne _ _ _ (fun h => hp h.symm)]
    exact hsetup p

/-- Keys after `incrementSeverityCount`. -/
lemma mem_keys_increment (sd : ScanData) (i : Issue) (q : String) :
    q ∈ (incrementSeverityCount sd i).SeverityCount.map Prod.fst →
      q = normalizedProduct i ∨ q ∈ sd.SeverityCount.map Prod.fst := by
  unfold incrementSeverityCount
  intro h
  have h1 := mem_keys_mapStore (normalizedProduct i) q _ _ h
  rcases h1 with h1 | h1
  · exact Or.inl h1
  · have h2 := mem_keys_setup sd (normalizedProduct i) q h1
    rcases h2 with h2 | h2
    · rw [if_neg (normalizedProduct_ne i)] at h2
      exact Or.inl h2
    · exact Or.inr h2

end VulnmapLS

namespace VulnmapLS

/-- A dedup-rejected issue leaves the scan data untouched. -/
lemma processIssue_snd_true (d : List String) (acc : Folder × ScanData) (i : Issue)
    (h : d.contains (getUniqueIssueID i) = true) :
    (processIssue d acc i).2 = acc.2 := by
  obtain ⟨f, sd⟩ := acc
  simp only [processIssue, h]
  rfl

/-- A dedup-accepted issue bumps the counters. -/
lemma processIssue_snd_false (d : List String) (acc : Folder × ScanData) (i : Issue)
    (h : d.contains (getUniqueIssueID i) = false) :
    (processIssue d acc i).2 = incrementSeverityCount acc.2 i := by
  obtain ⟨f, sd⟩ := acc
  simp only [processIssue, h]
  rfl

/-- The scan-data component of the processing loop: counters are bumped for
exactly the issues whose unique IDs pass the dedup membership test, in
order. -/
lemma foldl_processIssue_snd (d : List String) :
    ∀ (l : List Issue) (acc : Folder × ScanData),
      (l.foldl (processIssue d) acc).2
        = (l.filter (fun i => !(d.contains (getUniqueIssueID i)))).foldl
            incrementSeverityCount acc.2 := by
  intro l
  induction l with
  | nil => intro acc; rfl
  | cons i rest ih =>
    intro acc
    rw [List.foldl_cons, List.filter_cons, ih (processIssue d acc i)]
    cases h : d.contains (getUniqueIssueID i) with
    | true =>
      rw [processIssue_snd_true d acc i h]
      simp
    | false =>
      rw [processIssue_snd_false d acc i h]
      simp

/-- Adding the zero tally is the identity. -/
lemma scAdd_zero (a : SeverityCount) : scAdd a {} = a := by
  cases a
  simp [scAdd]

/-- A severity bump can move across a tally sum. -/
lemma scAdd_bump (i : Issue) (a b : SeverityCount) :
    scAdd (bumpSeverity i a) b = scAdd a (bumpSeverity i b) := by
  cases hs : i.Severity <;> cases a <;> cases b <;> simp [scAdd, bumpSeverity, hs] <;> omega

/-- Folding `incrementSeverityCount` adds, per product, the severity tally
of the folded issues to the initial counts. -/
lemma getCount_foldl_increment :
    ∀ (l : List Issue) (sd : ScanData) (p : String),
      getCount ((l.foldl incrementSeverityCount sd).SeverityCount) p
        = scAdd (getCount sd.SeverityCount p) (productTally p l) := by
  intro l
  induction l with
  | nil =>
    intro sd p
    rw [List.foldl_nil, productTally, scAdd_zero]
  | cons i rest ih =>
    intro sd p
    rw [List.foldl_cons, ih, productTally]
    by_cases hp : normalizedProduct i = p
    · rw [getCount_increment, if_pos hp, if_pos hp, scAdd_bump]
    · rw [getCount_increment, if_neg hp, if_neg hp]

/-- The normalization used by the aggregator never yields an empty key. -/
lemma normKey_ne (p : String) : (if p = "" then "unknown" else p) ≠ "" := by
  split
  · decide
  · assumption

/-- Counter keys stay non-empty through the increment fold. -/
lemma keys_foldl_increment :
    ∀ (l : List Issue) (sd : ScanData),
      (∀ q ∈ sd.SeverityCount.map Prod.fst, q ≠ "") →
      ∀ q ∈ ((l.foldl incrementSeverityCount sd).SeverityCount.map Prod.fst), q ≠ "" := by
  intro l
  induction l with
  | nil => intro sd h; exact h
  | cons i rest ih =>
    intro sd h
    rw [List.foldl_cons]
    apply ih
    intro q hq
    rcases mem_keys_increment sd i q hq with hq2 | hq2
    · rw [hq2]; exact normalizedProduct_ne i
    · exact h q hq2

/-- C6: during `processResults` of a successful scan, the per-product
per-severity counters gain exactly the tally of the issues the dedup check
accepts as new (an issue whose unique identity was already cached is not
counted), with empty product labels counted under "unknown" (the
`normalizedProduct` in `productTally`); and no counter key is ever the
empty string. -/
theorem severity_count_accepted (cfg : Config) (f : Folder) (scanData : ScanData)
    (hErr : scanData.Err = none)
    (hKeys : ∀ q ∈ scanData.SeverityCount.map Prod.fst, q ≠ "") :
    (∀ p, getCount (processResults cfg f scanData).2.1.SeverityCount p
        = scAdd (getCount scanData.SeverityCount p)
            (productTally p (scanData.Issues.filter
              (fun i => !((createDedupMap f).contains (getUniqueIssueID i))))))
    ∧ (∀ q ∈ (processResults cfg f scanData).2.1.SeverityCount.map Prod.fst, q ≠ "") := by
  have hred : (processResults cfg f scanData).2.1
      = sendAnalytics
          (scanData.Issues.foldl (processIssue (createDedupMap f)) (f, scanData)).2 := by
    simp [processResults, hErr]
  constructor
  · intro p
    rw [hred]
    unfold sendAnalytics
    rw [getCount_setup, foldl_processIssue_snd, getCount_foldl_increment]
  · intro q hq
    rw [hred] at hq
    unfold sendAnalytics at hq
    rcases mem_keys_setup _ _ q hq with hq2 | hq2
    · rw [hq2]; exact normKey_ne _
    · rw [foldl_processIssue_snd] at hq2
      exact keys_foldl_increment _ scanData hKeys q hq2

/-- C6 witness: processing a batch with one "oss" issue and one
empty-product issue on an empty cache counts one High under "oss", one
Medium under "unknown", and no key is empty. -/
theorem severity_count_accepted_witness :
    scanBatch.Err = none
    ∧ (∀ q ∈ scanBatch.SeverityCount.map Prod.fst, q ≠ "")
    ∧ getCount (processResults cfgOpen emptyFolder scanBatch).2.1.SeverityCount "oss"
        = scAdd (getCount scanBatch.SeverityCount "oss")
            (productTally "oss" (scanBatch.Issues.filter
              (fun i => !((createDedupMap emptyFolder).contains (getUniqueIssueID i)))))
    ∧ getCount (processResults cfgOpen emptyFolder scanBatch).2.1.SeverityCount "unknown"
        = scAdd (getCount scanBatch.SeverityCount "unknown")
            (productTally "unknown" (scanBatch.Issues.filter
              (fun i => !((createDedupMap emptyFolder).contains (getUniqueIssueID i))))) :=
  ⟨rfl, by simp [scanBatch],
   (severity_count_accepted cfgOpen emptyFolder scanBatch rfl (by simp [scanBatch])).1 "oss",
   (severity_count_accepted cfgOpen emptyFolder scanBatch rfl (by simp [scanBatch])).1 "unknown"⟩

end VulnmapLS

namespace VulnmapLS

/-! ### C1: dedup identity -/

/-- `countListIds` distributes over append. -/
lemma countListIds_append (a b : List Issue) (uid : String) :
    countListIds (a ++ b) uid = countListIds a uid + countListIds b uid := by
  unfold countListIds
  rw [List.filter_append, List.length_append]

/-- A store exchanges the old entry's contribution to the identity count
for the new value's. -/
lemma countIssuesWithId_mapStore (k : String) (v : List Issue) (uid : String) :
    ∀ (c : DiagnosticCache),
      countIssuesWithId (mapStore k v c) uid
          + countListIds ((mapLookup k c).getD []) uid
        = countIssuesWithId c uid + countListIds v uid := by
  intro c
  induction c with
  | nil => simp [mapStore, mapLookup, countIssuesWithId, countListIds]
  | cons kv rest ih =>
    obtain ⟨k', w⟩ := kv
    by_cases h : k' = k
    · subst h
      simp [mapStore, mapLookup, countIssuesWithId]
      omega
    · simp [mapStore, mapLookup, countIssuesWithId, h] at ih ⊢
      omega

/-- Identity-count effect of one `processIssue` step: unchanged for a
dedup-rejected issue, one more occurrence of its own identity for an
accepted one. -/
lemma processIssue_count (d : List String) (acc : Folder × ScanData) (i : Issue)
    (uid : String) :
    countIssuesWithId (processIssue d acc i).1.documentDiagnosticCache uid
      = countIssuesWithId acc.1.documentDiagnosticCache uid
        + (if d.contains (getUniqueIssueID i) then 0 else countListIds [i] uid) := by
  obtain ⟨f, sd⟩ := acc
  have hstore := countIssuesWithId_mapStore i.AffectedFilePath
  cases h : d.contains (getUniqueIssueID i) with
  | true =>
    have hcache : (processIssue d (f, sd) i).1.documentDiagnosticCache
        = mapStore i.AffectedFilePath
            ((mapLookup i.AffectedFilePath f.documentDiagnosticCache).getD [])
            f.documentDiagnosticCache := by
      simp only [processIssue, h]
      rfl
    rw [hcache]
    have h1 := hstore ((mapLookup i.AffectedFilePath f.documentDiagnosticCache).getD [])
      uid f.documentDiagnosticCache
    simp
    omega
  | false =>
    have hcache : (processIssue d (f, sd) i).1.documentDiagnosticCache
        = mapStore i.AffectedFilePath
            (((mapLookup i.AffectedFilePath f.documentDiagnosticCache).getD []) ++ [i])
            f.documentDiagnosticCache := by
      simp only [processIssue, h]
      rfl
    rw [hcache]
    have h1 := hstore
      (((mapLookup i.AffectedFilePath f.documentDiagnosticCache).getD []) ++ [i])
      uid f.documentDiagnosticCache
    rw [countListIds_append] at h1
    simp
    omega

/-- Identity-count effect of the whole processing loop. -/
lemma foldl_processIssue_count (d : List String) (uid : String) :
    ∀ (l : List Issue) (acc : Folder × ScanData),
      countIssuesWithId (l.foldl (processIssue d) acc).1.documentDiagnosticCache uid
        = countIssuesWithId acc.1.documentDiagnosticCache uid
          + countListIds (l.filter (fun i => !(d.contains (getUniqueIssueID i)))) uid := by
  intro l
  induction l with
  | nil => intro acc; simp [countListIds]
  | cons i rest ih =>
    intro acc
    rw [List.foldl_cons, List.filter_cons, ih (processIssue d acc i),
      processIssue_count d acc i uid]
    have hsplit : ∀ (l2 : List Issue),
        countListIds (i :: l2) uid = countListIds [i] uid + countListIds l2 uid := by
      intro l2
      have hl : i :: l2 = [i] ++ l2 := rfl
      rw [hl, countListIds_append]
    cases h : d.contains (getUniqueIssueID i) with
    | true =>
      rw [if_pos rfl, if_neg (by decide)]
      omega
    | false =>
      rw [if_neg (by decide), if_pos (by decide),
        hsplit (rest.filter (fun i => !(d.contains (getUniqueIssueID i))))]
      omega

/-- `countListIds` over a cons. -/
lemma countListIds_cons (i : Issue) (l : List Issue) (uid : String) :
    countListIds (i :: l) uid
      = (if getUniqueIssueID i == uid then 1 else 0) + countListIds l uid := by
  unfold countListIds
  rw [List.filter_cons]
  cases hb : (getUniqueIssueID i == uid) with
  | true =>
    simp
    omega
  | false => simp

/-- An identity already in the cache never passes the dedup filter, so it
contributes nothing new. -/
lemma countListIds_filter_dedup (d : List String) (uid : String)
    (hcont : d.contains uid = true) :
    ∀ (l : List Issue),
      countListIds (l.filter (fun i => !(d.contains (getUniqueIssueID i)))) uid = 0 := by
  intro l
  induction l with
  | nil => rfl
  | cons i rest ih =>
    rw [List.filter_cons]
    cases hc : d.contains (getUniqueIssueID i) with
    | true =>
      show countListIds (rest.filter (fun i => !(d.contains (getUniqueIssueID i)))) uid = 0
      exact ih
    | false =>
      have hb : (getUniqueIssueID i == uid) = false := by
        by_contra hcontra
        simp only [Bool.not_eq_false, beq_iff_eq] at hcontra
        rw [hcontra] at hc
        rw [hc] at hcont
        cases hcont
      show countListIds (i :: rest.filter (fun i => !(d.contains (getUniqueIssueID i)))) uid = 0
      rw [countListIds_cons, hb]
      simpa using ih

/-- Membership of an identity in the per-file identity list is a positive
per-file count. -/
lemma mem_map_gid_iff (uid : String) :
    ∀ (l : List Issue), uid ∈ l.map getUniqueIssueID ↔ 0 < countListIds l uid := by
  intro l
  induction l with
  | nil => simp [countListIds]
  | cons i rest ih =>
    by_cases hb : getUniqueIssueID i = uid
    · simp [countListIds, List.filter_cons, hb]
    · have hb2 : (getUniqueIssueID i == uid) = false := by simp [hb]
      simp only [List.map_cons, List.mem_cons, countListIds, List.filter_cons, hb2,
        Bool.false_eq_true, if_false]
      constructor
      · rintro (h | h)
        · exact absurd h.symm hb
        · exact (ih.mp h)
      · intro h
        exact Or.inr (ih.mpr h)

/-- The dedup map contains an identity iff the cache holds at least one
issue with that identity. -/
lemma contains_dedup_iff (uid : String) :
    ∀ (c : DiagnosticCache),
      ((c.map (fun kv => kv.2.map getUniqueIssueID)).flatten).contains uid = true
        ↔ 0 < countIssuesWithId c uid := by
  intro c
  induction c with
  | nil => simp [countIssuesWithId]
  | cons kv rest ih =>
    simp only [List.map_cons, List.flatten_cons, countIssuesWithId, List.sum_cons,
      List.elem_iff, List.mem_append] at ih ⊢
    rw [mem_map_gid_iff uid kv.2, ih]
    omega

end VulnmapLS

namespace VulnmapLS

/-- C1 counterexample: the dedup map is built once per batch and not
updated inside the insertion loop, so a single `ScanData` carrying the same
issue twice inserts it twice — the cache then holds two issues with the
same unique identity `ID + "|" + AffectedFilePath`. -/
theorem dedup_single_batch_counterexample :
    (processResults cfgOpen emptyFolder
        { Product := "oss", Issues := [issueA, issueA] }).1.documentDiagnosticCache
      = [("/p/f.go", [issueA, issueA])]
    ∧ countIssuesWithId (processResults cfgOpen emptyFolder
        { Product := "oss", Issues := [issueA, issueA] }).1.documentDiagnosticCache
        (getUniqueIssueID issueA) = 2
    ∧ cacheHasUniqueIds (processResults cfgOpen emptyFolder
        { Product := "oss", Issues := [issueA, issueA] }).1.documentDiagnosticCache
      = false := by
  decide

/-- C1 amended: dedup works across successive batches but not within one
batch: `processResults` never re-inserts an issue whose unique identity was
already anywhere in the cache when the batch started (so a pre-existing
identity keeps its multiplicity, and one cached instance stays exactly
one); a fresh identity is inserted once per occurrence in the batch, so a
batch repeating an identity inserts it repeatedly. -/
theorem processResults_dedup_identity (cfg : Config) (f : Folder) (scanData : ScanData)
    (uid : String) (hErr : scanData.Err = none) :
    countIssuesWithId (processResults cfg f scanData).1.documentDiagnosticCache uid
      = countIssuesWithId f.documentDiagnosticCache uid
        + countListIds (scanData.Issues.filter
            (fun i => !((createDedupMap f).contains (getUniqueIssueID i)))) uid
    ∧ ((createDedupMap f).contains uid = true
        ↔ 0 < countIssuesWithId f.documentDiagnosticCache uid)
    ∧ ((createDedupMap f).contains uid = true →
        countIssuesWithId (processResults cfg f scanData).1.documentDiagnosticCache uid
          = countIssuesWithId f.documentDiagnosticCache uid) := by
  have hred : (processResults cfg f scanData).1
      = (scanData.Issues.foldl (processIssue (createDedupMap f)) (f, scanData)).1 := by
    simp [processResults, hErr]
  have hmain : countIssuesWithId (processResults cfg f scanData).1.documentDiagnosticCache uid
      = countIssuesWithId f.documentDiagnosticCache uid
        + countListIds (scanData.Issues.filter
            (fun i => !((createDedupMap f).contains (getUniqueIssueID i)))) uid := by
    rw [hred, foldl_processIssue_count]
  refine ⟨hmain, ?_, ?_⟩
  · exact contains_dedup_iff uid f.documentDiagnosticCache
  · intro hcont
    rw [hmain, countListIds_filter_dedup (createDedupMap f) uid hcont, Nat.add_zero]

/-- C1 witness: re-reporting the already-cached `issueA` in a later batch
leaves its identity count at its prior value. -/
theorem processResults_dedup_identity_witness :
    ({ Product := "oss", Issues := [issueA] } : ScanData).Err = none
    ∧ (countIssuesWithId (processResults cfgOpen cachedFolder
          { Product := "oss", Issues := [issueA] }).1.documentDiagnosticCache
          (getUniqueIssueID issueA)
        = countIssuesWithId cachedFolder.documentDiagnosticCache (getUniqueIssueID issueA)
          + countListIds
              (({ Product := "oss", Issues := [issueA] } : ScanData).Issues.filter
                (fun i => !((createDedupMap cachedFolder).contains (getUniqueIssueID i))))
              (getUniqueIssueID issueA)
      ∧ ((createDedupMap cachedFolder).contains (getUniqueIssueID issueA) = true
          ↔ 0 < countIssuesWithId cachedFolder.documentDiagnosticCache
              (getUniqueIssueID issueA))
      ∧ ((createDedupMap cachedFolder).contains (getUniqueIssueID issueA) = true →
          countIssuesWithId (processResults cfgOpen cachedFolder
              { Product := "oss", Issues := [issueA] }).1.documentDiagnosticCache
              (getUniqueIssueID issueA)
            = countIssuesWithId cachedFolder.documentDiagnosticCache
                (getUniqueIssueID issueA))) :=
  ⟨rfl, processResults_dedup_identity cfgOpen cachedFolder
    { Product := "oss", Issues := [issueA] } (getUniqueIssueID issueA) rfl⟩

end VulnmapLS
